import Mathlib

/-!
Shallow embedding of the ddv-items CSV conversion tool (src/parser.go).

The program parses a CSV file, filters rows by a fixed category allow-list
and a fixed name exclude-list, sorts the surviving items by id, and writes
id-to-name JSON lookup tables (one aggregate file plus one per category).
The pure logic of every function of parser.go is embedded below; file I/O is
modelled by explicit data (a parsed CSV is a list of rows, a write either
succeeds or fails according to an oracle), and the call to the library sort
in sortItemsByID is modelled by the contract the sort library documents.
-/

namespace DdvItems

/-- Characters accepted by Go's unicode.IsSpace (the Latin-1 fast path plus
the Unicode white-space runes); strings.TrimSpace trims exactly these. -/
def goIsSpace (c : Char) : Bool :=
  c.toNat = 9 || c.toNat = 10 || c.toNat = 11 || c.toNat = 12 || c.toNat = 13 ||
  c.toNat = 32 || c.toNat = 0x85 || c.toNat = 0xA0 || c.toNat = 0x1680 ||
  (0x2000 ≤ c.toNat && c.toNat ≤ 0x200A) || c.toNat = 0x2028 ||
  c.toNat = 0x2029 || c.toNat = 0x202F || c.toNat = 0x205F || c.toNat = 0x3000

/-- Trim goIsSpace characters from both ends of a character list. -/
def trimList (l : List Char) : List Char :=
  ((l.dropWhile goIsSpace).reverse.dropWhile goIsSpace).reverse

/-- Model of Go strings.TrimSpace. -/
def goTrimSpace (s : String) : String := String.mk (trimList s.toList)

/-- Check that the first list occurs at the very start of the second. -/
def leadMatch : List Char → List Char → Bool
  | [], _ => true
  | _ :: _, [] => false
  | a :: as, b :: bs => a == b && leadMatch as bs

/-- Model of Go strings.Contains: sub occurs somewhere inside s. -/
def strContains (s sub : String) : Bool :=
  s.toList.tails.any (fun t => leadMatch sub.toList t)

/-- Numeric value of an ASCII decimal digit, if the character is one. -/
def digitVal (c : Char) : Option Nat :=
  if 48 ≤ c.toNat && c.toNat ≤ 57 then some (c.toNat - 48) else none

/-- Parse a non-empty all-digit character list as a base-10 natural number. -/
def parseDigits (cs : List Char) : Option Nat :=
  if cs.isEmpty then none
  else cs.foldl (fun acc c => acc.bind (fun n => (digitVal c).map (fun d => n * 10 + d))) (some 0)

/-- Model of Go strconv.Atoi: an optional single sign followed by at least one
base-10 digit, rejected when the value overflows a 64-bit signed integer. -/
def atoi (s : String) : Option Int :=
  match s.toList with
  | '+' :: rest => (parseDigits rest).bind (fun n =>
      if n ≤ 9223372036854775807 then some (n : Int) else none)
  | '-' :: rest => (parseDigits rest).bind (fun n =>
      if n ≤ 9223372036854775808 then some (-(n : Int)) else none)
  | cs => (parseDigits cs).bind (fun n =>
      if n ≤ 9223372036854775807 then some (n : Int) else none)

/-- Byte-wise strict comparison of character lists; on valid UTF-8, comparing
scalar values position by position agrees with Go's byte-wise string <. -/
def goListLt : List Char → List Char → Bool
  | [], [] => false
  | [], _ :: _ => true
  | _ :: _, [] => false
  | a :: as, b :: bs =>
    if a.toNat < b.toNat then true
    else if b.toNat < a.toNat then false
    else goListLt as bs

/-- Model of Go's string operator < (byte-wise lexicographic). -/
def goStrLt (a b : String) : Bool := goListLt a.toList b.toList

/-- Item record (src/parser.go lines 23-27). -/
structure Item where
  ID : String
  Name : String
  Category : String
deriving DecidableEq

/-- Category allow-list (line 18). -/
def includedCategories : List String :=
  ["Pet", "House Floor", "House Wallpaper", "House", "NPC Skin"]

/-- Name exclude-substring list (line 19). -/
def excludeWords : List String := ["Quest", "DONT", "Don\x27t", "Bug"]

/-- One step of the header scan of processCSV (lines 117-126): the if and
else-if chain updating the three resolved column indices. -/
def resolveStep (col : String) (i : Int) (acc : Int × Int × Int) : Int × Int × Int :=
  let t := goTrimSpace col
  if t = "Item ID" then (i, acc.2.1, acc.2.2)
  else if t = "Name" then (acc.1, i, acc.2.2)
  else if t = "Category" then (acc.1, acc.2.1, i)
  else acc

/-- Header scan loop of processCSV, carrying the running position. -/
def resolveColsAux : List String → Int → Int × Int × Int → Int × Int × Int
  | [], _, acc => acc
  | col :: rest, i, acc => resolveColsAux rest (i + 1) (resolveStep col i acc)

/-- Header column resolution of processCSV (lines 116-126): the indices of
the Item ID, Name and Category columns, each -1 when absent. -/
def resolveCols (header : List String) : Int × Int × Int :=
  resolveColsAux header 0 (-1, -1, -1)

/-- Per-row filtering of processCSV (lines 144-188): skip short rows, trim the
three fields, skip empty fields, require the category to be allow-listed and
the name to contain no exclude-substring. -/
def keepRow (idI idN idC : Nat) (record : List String) : Option Item :=
  if record.length ≤ max idI (max idN idC) then none
  else if goTrimSpace (record.getD idI "") = "" ∨ goTrimSpace (record.getD idN "") = "" ∨
      goTrimSpace (record.getD idC "") = "" then none
  else if !(includedCategories.any (fun c => c == goTrimSpace (record.getD idC ""))) then none
  else if excludeWords.any (fun w => strContains (goTrimSpace (record.getD idN "")) w) then none
  else some { ID := goTrimSpace (record.getD idI ""), Name := goTrimSpace (record.getD idN ""),
              Category := goTrimSpace (record.getD idC "") }

/-- Data-row loop of processCSV (lines 134-189). -/
def processRows (idI idN idC : Nat) (rows : List (List String)) : List Item :=
  rows.filterMap (keepRow idI idN idC)

/-- Model of processCSV (lines 98-192) on an already-parsed CSV file: the
first row is the header, the remaining rows are data rows. -/
def processCSV : List (List String) → Except String (List Item)
  | [] => Except.error "could not read header"
  | header :: rows =>
    if (resolveCols header).1 = -1 ∨ (resolveCols header).2.1 = -1 ∨
        (resolveCols header).2.2 = -1 then
      Except.error "could not find required columns (Item ID, Name, Category) in the CSV"
    else
      Except.ok (processRows (resolveCols header).1.toNat (resolveCols header).2.1.toNat
        (resolveCols header).2.2.toNat rows)

/-- The comparison closure passed to sort.Slice by sortItemsByID
(lines 217-229): numeric when both ids parse via Atoi, else string order. -/
def lessItems (x y : Item) : Bool :=
  match atoi x.ID, atoi y.ID with
  | some i, some j => decide (i < j)
  | _, _ => goStrLt x.ID y.ID

/-- Contract of sortItemsByID (lines 216-230): sort.Slice reorders the slice
into some permutation that is sorted according to the less closure.  The Go
library documents exactly this and explicitly does not guarantee stability. -/
def sortItemsByID_spec (input output : List Item) : Prop :=
  output.Perm input ∧ output.Pairwise (fun x y => lessItems y x = false)

/-- Go map assignment m[k] = v on an association-list view of the map. -/
def mapInsert : List (String × String) → String → String → List (String × String)
  | [], k, v => [(k, v)]
  | (k', v') :: rest, k, v =>
    if k' = k then (k, v) :: rest else (k', v') :: mapInsert rest k v

/-- convertItemsToMap (lines 195-201): fold the items into an id-to-name map,
later assignments overwriting earlier ones. -/
def convertItemsToMap (items : List Item) : List (String × String) :=
  items.foldl (fun m it => mapInsert m it.ID it.Name) []

/-- Lookup in the association-list view of a Go map. -/
def mapLookup : List (String × String) → String → Option String
  | [], _ => none
  | (k', v) :: rest, k => if k' = k then some v else mapLookup rest k

/-- Name of the last record carrying a given id, in list order. -/
def lastWriteWins (items : List Item) (id : String) : Option String :=
  items.foldl (fun acc it => if it.ID = id then some it.Name else acc) none

/-- The rune-mapping closure of sanitizeFilename (lines 238-243). -/
def sanitizeRune (r : Char) : Char :=
  if ('a' ≤ r ∧ r ≤ 'z') ∨ ('A' ≤ r ∧ r ≤ 'Z') ∨ ('0' ≤ r ∧ r ≤ '9') ∨ r = '_' ∨ r = '-' then r
  else '_'

/-- sanitizeFilename (lines 233-246): replace spaces by underscores, then map
every remaining disallowed rune to an underscore. -/
def sanitizeFilename (name : String) : String :=
  String.mk (((name.toList).map (fun c => if c = ' ' then '_' else c)).map sanitizeRune)

/-- Lower-case hexadecimal digit character. -/
def hexDigitChar (n : Nat) : Char :=
  if n < 10 then Char.ofNat (48 + n) else Char.ofNat (87 + n)

/-- Escaping of one character inside a JSON string as Go encoding/json does it
with its default HTML escaping. -/
def escapeJSONChar (c : Char) : List Char :=
  if c = '"' then ['\\', '"']
  else if c = '\\' then ['\\', '\\']
  else if c = '\n' then ['\\', 'n']
  else if c = '\r' then ['\\', 'r']
  else if c = '\t' then ['\\', 't']
  else if c.toNat < 32 ∨ c = '<' ∨ c = '>' ∨ c = '&' then
    ['\\', 'u', '0', '0', hexDigitChar (c.toNat / 16), hexDigitChar (c.toNat % 16)]
  else if c.toNat = 0x2028 ∨ c.toNat = 0x2029 then
    ['\\', 'u', '2', '0', '2', hexDigitChar (c.toNat % 16)]
  else [c]

/-- JSON string literal for s, double quotes included. -/
def escapeJSONString (s : String) : String :=
  String.mk ('"' :: (s.toList.foldr (fun c acc => escapeJSONChar c ++ acc) ['"']))

/-- Key order used by Go encoding/json when serializing a string-keyed map:
byte-wise order on the keys. -/
def keyLe (p q : String × String) : Prop := goStrLt p.1 q.1 = true ∨ p.1 = q.1

instance : DecidableRel keyLe := fun p q => by
  unfold keyLe
  exact inferInstance

/-- The key-sorting pass Go encoding/json performs before serializing a map. -/
def sortPairs (m : List (String × String)) : List (String × String) :=
  List.insertionSort keyLe m

/-- Byte output of saveMapToJSON (lines 204-213): json.MarshalIndent with
two-space indent on a string-keyed map, keys serialized in sorted byte order
as encoding/json does for maps. -/
def saveMapToJSON_bytes (m : List (String × String)) : String :=
  match sortPairs m with
  | [] => "\x7b\x7d"
  | l => "\x7b\n" ++ String.intercalate ",\n"
      (l.map (fun p => "  " ++ escapeJSONString p.1 ++ ": " ++ escapeJSONString p.2)) ++ "\n\x7d"

/-- Items of one category, in list order (per-key append order of the
categoryMap built in main, lines 72-75). -/
def groupOf (items : List Item) (c : String) : List Item :=
  items.filter (fun it => it.Category == c)

/-- Files written by main (lines 62-90) as pairs of path and byte content: the
aggregate allitems.json first, then one file per category following catOrder,
the iteration order of the Go category map. -/
def pipelineFiles (outdir : String) (sorted : List Item) (catOrder : List String) :
    List (String × String) :=
  (outdir ++ "/allitems.json", saveMapToJSON_bytes (convertItemsToMap sorted)) ::
  catOrder.map (fun c =>
    (outdir ++ "/" ++ sanitizeFilename c ++ ".json",
     saveMapToJSON_bytes (convertItemsToMap (groupOf sorted c))))

/-- Outcome of the export phase of main: the exit code (0 when main runs to
completion) and every attempted file write, in order, with its success bit. -/
structure ExportOutcome where
  exitCode : Nat
  attempts : List (String × Bool)
deriving DecidableEq

/-- Control flow of the export phase of main (lines 62-90), with writeOk
telling whether the os.WriteFile call for a given path succeeds: the aggregate
is written first, a failure there exits with status 1 before any category
file is attempted, and a category failure is logged and skipped while the
loop over the remaining categories continues. -/
def runExport (writeOk : String → Bool) (outdir : String) (catOrder : List String) :
    ExportOutcome :=
  if writeOk (outdir ++ "/allitems.json") then
    { exitCode := 0,
      attempts := (outdir ++ "/allitems.json", true) ::
        catOrder.map (fun c =>
          (outdir ++ "/" ++ sanitizeFilename c ++ ".json",
           writeOk (outdir ++ "/" ++ sanitizeFilename c ++ ".json"))) }
  else
    { exitCode := 1, attempts := [(outdir ++ "/allitems.json", false)] }

/-- Position of the last column of a header whose trimmed name equals the
target, if any; used to characterize the header resolution of processCSV. -/
def lastMatchPos (target : String) : List String → Option Nat
  | [] => none
  | col :: rest =>
    match lastMatchPos target rest with
    | some j => some (j + 1)
    | none => if goTrimSpace col = target then some 0 else none

section Helpers

theorem char_eq_of_toNat_eq {a b : Char} (h : a.toNat = b.toNat) : a = b :=
  Char.ext (UInt32.ext h)

theorem dropWhile_split (p : Char → Bool) (l : List Char) :
    ∃ k, l = k ++ l.dropWhile p := by
  induction l with
  | nil => exact ⟨[], rfl⟩
  | cons c cs ih =>
    by_cases h : p c
    · obtain ⟨k, hk⟩ := ih
      refine ⟨c :: k, ?_⟩
      simp [List.dropWhile_cons, h, ← hk]
    · refine ⟨[], ?_⟩
      simp [List.dropWhile_cons, h]

theorem dropWhile_head_false {p : Char → Bool} {l : List Char} {x : Char} {xs : List Char}
    (h : l.dropWhile p = x :: xs) : p x = false := by
  induction l with
  | nil => simp at h
  | cons c cs ih =>
    rw [List.dropWhile_cons] at h
    by_cases hc : p c
    · rw [if_pos hc] at h
      exact ih h
    · rw [if_neg hc] at h
      cases h
      simpa using hc

theorem dropWhile_eq_self_of_head {p : Char → Bool} :
    ∀ {l : List Char}, (∀ x xs, l = x :: xs → p x = false) → l.dropWhile p = l
  | [], _ => rfl
  | x :: xs, h => by
    rw [List.dropWhile_cons, h x xs rfl]
    simp

theorem trimList_idem (l : List Char) : trimList (trimList l) = trimList l := by
  unfold trimList
  have h1 : (((l.dropWhile goIsSpace).reverse.dropWhile goIsSpace).reverse).dropWhile goIsSpace
      = ((l.dropWhile goIsSpace).reverse.dropWhile goIsSpace).reverse := by
    apply dropWhile_eq_self_of_head
    intro x xs hx
    obtain ⟨k, hk⟩ := dropWhile_split goIsSpace (l.dropWhile goIsSpace).reverse
    have hd2 : l.dropWhile goIsSpace
        = ((l.dropWhile goIsSpace).reverse.dropWhile goIsSpace).reverse ++ k.reverse := by
      have := congrArg List.reverse hk
      simpa using this
    rw [hx] at hd2
    exact dropWhile_head_false (by rw [hd2]; rfl)
  rw [h1]
  rw [List.reverse_reverse, List.dropWhile_idempotent]

theorem goTrimSpace_idem (s : String) : goTrimSpace (goTrimSpace s) = goTrimSpace s := by
  show String.mk (trimList (String.mk (trimList s.toList)).toList) = _
  show String.mk (trimList (trimList s.toList)) = _
  rw [trimList_idem]
  rfl

theorem goListLt_asymm : ∀ {a b : List Char}, goListLt a b = true → goListLt b a = false
  | [], [], h => by simp [goListLt] at h
  | [], _ :: _, _ => rfl
  | _ :: _, [], h => by simp [goListLt] at h
  | a :: as, b :: bs, h => by
    simp only [goListLt] at h ⊢
    rcases Nat.lt_trichotomy a.toNat b.toNat with hlt | heq | hgt
    · simp [hlt, Nat.lt_asymm hlt]
    · simp only [heq, lt_irrefl, if_false] at h ⊢
      exact goListLt_asymm h
    · simp [hgt, Nat.lt_asymm hgt] at h

theorem goListLt_trichotomy : ∀ a b : List Char, goListLt a b = true ∨ a = b ∨ goListLt b a = true
  | [], [] => Or.inr (Or.inl rfl)
  | [], _ :: _ => Or.inl rfl
  | _ :: _, [] => Or.inr (Or.inr rfl)
  | a :: as, b :: bs => by
    rcases Nat.lt_trichotomy a.toNat b.toNat with hlt | heq | hgt
    · left
      simp [goListLt, hlt]
    · have hab : a = b := char_eq_of_toNat_eq heq
      subst hab
      rcases goListLt_trichotomy as bs with h | h | h
      · left
        simp [goListLt, h]
      · exact Or.inr (Or.inl (by rw [h]))
      · right; right
        simp [goListLt, h]
    · right; right
      simp [goListLt, hgt]

theorem goListLt_trans : ∀ {a b c : List Char},
    goListLt a b = true → goListLt b c = true → goListLt a c = true
  | [], [], _, h1, _ => by simp [goListLt] at h1
  | [], _ :: _, [], _, h2 => by simp [goListLt] at h2
  | [], _ :: _, _ :: _, _, _ => rfl
  | _ :: _, [], _, h1, _ => by simp [goListLt] at h1
  | _ :: _, _ :: _, [], _, h2 => by simp [goListLt] at h2
  | a :: as, b :: bs, c :: cs, h1, h2 => by
    simp only [goListLt] at h1 h2 ⊢
    rcases Nat.lt_trichotomy a.toNat b.toNat with hab | hab | hab
    · rcases Nat.lt_trichotomy b.toNat c.toNat with hbc | hbc | hbc
      · simp [Nat.lt_trans hab hbc]
      · simp [hbc ▸ hab]
      · simp [hbc, Nat.lt_asymm hbc] at h2
    · rcases Nat.lt_trichotomy b.toNat c.toNat with hbc | hbc | hbc
      · simp [hab ▸ hbc]
      · have hac : a.toNat = c.toNat := hab.trans hbc
        simp only [hab, lt_irrefl, if_false] at h1
        simp only [hbc, lt_irrefl, if_false] at h2
        simp only [hac, lt_irrefl, if_false]
        exact goListLt_trans h1 h2
      · simp [hbc, Nat.lt_asymm hbc] at h2
    · simp [hab, Nat.lt_asymm hab] at h1

theorem goStrLt_asymm {a b : String} (h : goStrLt a b = true) : goStrLt b a = false :=
  goListLt_asymm h

theorem goStrLt_trichotomy (a b : String) :
    goStrLt a b = true ∨ a = b ∨ goStrLt b a = true := by
  rcases goListLt_trichotomy a.toList b.toList with h | h | h
  · exact Or.inl h
  · refine Or.inr (Or.inl ?_)
    cases a; cases b
    simpa [String.toList] using congrArg String.mk h
  · exact Or.inr (Or.inr h)

theorem goStrLt_trans {a b c : String}
    (h1 : goStrLt a b = true) (h2 : goStrLt b c = true) : goStrLt a c = true :=
  goListLt_trans h1 h2

/-- Two lists that are permutations of each other, both sorted under a
relation that is antisymmetric on the members of the first, are equal. -/
theorem sorted_perm_unique {α : Type} {r : α → α → Prop} :
    ∀ {l₁ l₂ : List α}, l₁.Perm l₂ → l₁.Pairwise r → l₂.Pairwise r →
      (∀ a ∈ l₁, ∀ b ∈ l₁, r a b → r b a → a = b) → l₁ = l₂ := by
  intro l₁
  induction l₁ with
  | nil =>
    intro l₂ hp _ _ _
    exact hp.nil_eq.symm ▸ rfl
  | cons a t₁ ih =>
    intro l₂ hp hs₁ hs₂ hanti
    cases l₂ with
    | nil => exact absurd hp.symm.nil_eq (by simp)
    | cons b t₂ =>
      have hab : a = b := by
        have ha2 : a ∈ b :: t₂ := hp.subset (List.mem_cons_self a t₁)
        rcases List.mem_cons.mp ha2 with h | ha2'
        · exact h
        · have hb1 : b ∈ a :: t₁ := hp.symm.subset (List.mem_cons_self b t₂)
          rcases List.mem_cons.mp hb1 with h | hb1'
          · exact h.symm
          · have hrab : r a b := (List.pairwise_cons.mp hs₁).1 b hb1'
            have hrba : r b a := (List.pairwise_cons.mp hs₂).1 a ha2'
            exact hanti a (List.mem_cons_self a t₁) b (List.mem_cons.mpr (Or.inr hb1')) hrab hrba
      subst hab
      have hpt : t₁.Perm t₂ := hp.cons_inv
      have ht := ih hpt (List.pairwise_cons.mp hs₁).2 (List.pairwise_cons.mp hs₂).2
        (fun x hx y hy => hanti x (List.mem_cons.mpr (Or.inr hx)) y (List.mem_cons.mpr (Or.inr hy)))
      rw [ht]

theorem resolveStep_fst (col : String) (i : Int) (acc : Int × Int × Int) :
    (resolveStep col i acc).1 = if goTrimSpace col = "Item ID" then i else acc.1 := by
  unfold resolveStep
  by_cases h1 : goTrimSpace col = "Item ID" <;> by_cases h2 : goTrimSpace col = "Name" <;>
    by_cases h3 : goTrimSpace col = "Category" <;> simp_all

theorem resolveStep_snd (col : String) (i : Int) (acc : Int × Int × Int) :
    (resolveStep col i acc).2.1 = if goTrimSpace col = "Name" then i else acc.2.1 := by
  unfold resolveStep
  by_cases h1 : goTrimSpace col = "Item ID" <;> by_cases h2 : goTrimSpace col = "Name" <;>
    by_cases h3 : goTrimSpace col = "Category" <;> simp_all

theorem resolveStep_trd (col : String) (i : Int) (acc : Int × Int × Int) :
    (resolveStep col i acc).2.2 = if goTrimSpace col = "Category" then i else acc.2.2 := by
  unfold resolveStep
  by_cases h1 : goTrimSpace col = "Item ID" <;> by_cases h2 : goTrimSpace col = "Name" <;>
    by_cases h3 : goTrimSpace col = "Category" <;> simp_all

theorem resolveColsAux_fst : ∀ (header : List String) (i : Int) (acc : Int × Int × Int),
    (resolveColsAux header i acc).1 =
      (match lastMatchPos "Item ID" header with
       | some j => i + (j : Int)
       | none => acc.1)
  | [], _, _ => rfl
  | col :: rest, i, acc => by
    rw [resolveColsAux, resolveColsAux_fst rest (i + 1) (resolveStep col i acc)]
    cases h : lastMatchPos "Item ID" rest with
    | some j =>
      simp only [lastMatchPos, h]
      push_cast
      ring
    | none =>
      simp only [lastMatchPos, h, resolveStep_fst]
      by_cases hc : goTrimSpace col = "Item ID" <;> simp [hc]

theorem resolveColsAux_snd : ∀ (header : List String) (i : Int) (acc : Int × Int × Int),
    (resolveColsAux header i acc).2.1 =
      (match lastMatchPos "Name" header with
       | some j => i + (j : Int)
       | none => acc.2.1)
  | [], _, _ => rfl
  | col :: rest, i, acc => by
    rw [resolveColsAux, resolveColsAux_snd rest (i + 1) (resolveStep col i acc)]
    cases h : lastMatchPos "Name" rest with
    | some j =>
      simp only [lastMatchPos, h]
      push_cast
      ring
    | none =>
      simp only [lastMatchPos, h, resolveStep_snd]
      by_cases hc : goTrimSpace col = "Name" <;> simp [hc]

theorem resolveColsAux_trd : ∀ (header : List String) (i : Int) (acc : Int × Int × Int),
    (resolveColsAux header i acc).2.2 =
      (match lastMatchPos "Category" header with
       | some j => i + (j : Int)
       | none => acc.2.2)
  | [], _, _ => rfl
  | col :: rest, i, acc => by
    rw [resolveColsAux, resolveColsAux_trd rest (i + 1) (resolveStep col i acc)]
    cases h : lastMatchPos "Category" rest with
    | some j =>
      simp only [lastMatchPos, h]
      push_cast
      ring
    | none =>
      simp only [lastMatchPos, h, resolveStep_trd]
      by_cases hc : goTrimSpace col = "Category" <;> simp [hc]

theorem lastMatchPos_none_iff (target : String) : ∀ header : List String,
    lastMatchPos target header = none ↔ ∀ col ∈ header, goTrimSpace col ≠ target
  | [] => by simp [lastMatchPos]
  | col :: rest => by
    have ih := lastMatchPos_none_iff target rest
    cases h : lastMatchPos target rest with
    | some j =>
      simp only [lastMatchPos, h]
      constructor
      · intro hfalse
        cases hfalse
      · intro hall
        have : ∀ c ∈ rest, goTrimSpace c ≠ target := fun c hc => hall c (List.mem_cons_of_mem _ hc)
        rw [← ih, h] at this
        cases this
    | none =>
      simp only [lastMatchPos, h]
      rw [h] at ih
      by_cases hc : goTrimSpace col = target
      · simp only [hc, if_pos rfl]
        constructor
        · intro hfalse
          cases hfalse
        · intro hall
          exact absurd hc (hall col (List.mem_cons_self col rest))
      · simp only [if_neg hc]
        constructor
        · intro _ c hcmem
          rcases List.mem_cons.mp hcmem with rfl | hcr
          · exact hc
          · exact (ih.mp rfl) c hcr
        · intro _
          trivial

theorem lastMatchPos_spec (target : String) : ∀ (header : List String) (j : Nat),
    lastMatchPos target header = some j →
      j < header.length ∧ goTrimSpace (header.getD j "") = target ∧
      ∀ k, j < k → k < header.length → goTrimSpace (header.getD k "") ≠ target
  | [], j, h => by simp [lastMatchPos] at h
  | col :: rest, j, h => by
    rw [lastMatchPos] at h
    cases hr : lastMatchPos target rest with
    | some j' =>
      rw [hr] at h
      cases h
      obtain ⟨hlen, hget, hafter⟩ := lastMatchPos_spec target rest j' hr
      refine ⟨by simpa using Nat.succ_lt_succ hlen, by simpa using hget, ?_⟩
      intro k hk1 hk2
      cases k with
      | zero => omega
      | succ k' =>
        simpa using hafter k' (by omega) (by simpa using hk2)
    | none =>
      rw [hr] at h
      by_cases hc : goTrimSpace col = target
      · rw [if_pos hc] at h
        cases h
        refine ⟨by simp, by simpa using hc, ?_⟩
        intro k hk1 hk2
        cases k with
        | zero => omega
        | succ k' =>
          have hall := (lastMatchPos_none_iff target rest).mp hr
          have hk2' : k' < rest.length := by simpa using hk2
          have hmem : rest.getD k' "" ∈ rest := by
            rw [List.getD_eq_getElem rest "" hk2']
            exact List.getElem_mem hk2'
          simpa using hall _ hmem
      · rw [if_neg hc] at h
        cases h

theorem mapLookup_mapInsert (m : List (String × String)) (k v k' : String) :
    mapLookup (mapInsert m k v) k' = if k = k' then some v else mapLookup m k' := by
  induction m with
  | nil =>
    simp [mapInsert, mapLookup]
  | cons p rest ih =>
    obtain ⟨ek, ev⟩ := p
    by_cases he : ek = k
    · subst he
      simp only [mapInsert, if_pos rfl]
      by_cases h : ek = k' <;> simp [mapLookup, h]
    · simp only [mapInsert, if_neg he]
      by_cases h : ek = k'
      · subst h
        have hkk : ¬ k = ek := fun hk => he hk.symm
        simp [mapLookup, hkk]
      · simp [mapLookup, h, ih]

theorem convert_foldl (items : List Item) : ∀ (m : List (String × String)) (id : String),
    mapLookup (items.foldl (fun acc it => mapInsert acc it.ID it.Name) m) id =
      items.foldl (fun acc it => if it.ID = id then some it.Name else acc) (mapLookup m id) := by
  induction items with
  | nil => intro m id; rfl
  | cons it rest ih =>
    intro m id
    simp only [List.foldl_cons]
    rw [ih]
    congr 1
    rw [mapLookup_mapInsert]

theorem mapLookup_convertItemsToMap (items : List Item) (id : String) :
    mapLookup (convertItemsToMap items) id = lastWriteWins items id := by
  have h := convert_foldl items [] id
  simpa [convertItemsToMap, lastWriteWins, mapLookup] using h

theorem lastWriteWins_mem : ∀ (items : List Item) (acc : Option String) (id name : String),
    items.foldl (fun acc it => if it.ID = id then some it.Name else acc) acc = some name →
    (∃ it, it ∈ items ∧ it.ID = id ∧ it.Name = name) ∨ acc = some name
  | [], _, _, _, h => Or.inr h
  | it :: rest, acc, id, name, h => by
    rcases lastWriteWins_mem rest (if it.ID = id then some it.Name else acc) id name h with
      ⟨x, hx, hid, hname⟩ | hacc
    · exact Or.inl ⟨x, List.mem_cons.mpr (Or.inr hx), hid, hname⟩
    · by_cases hc : it.ID = id
      · rw [if_pos hc] at hacc
        cases hacc
        exact Or.inl ⟨it, List.mem_cons_self it rest, hc, rfl⟩
      · rw [if_neg hc] at hacc
        exact Or.inr hacc

theorem lastWriteWins_eq_find (items : List Item) (id : String) :
    lastWriteWins items id = (items.reverse.find? (fun it => it.ID == id)).map Item.Name := by
  induction items using List.reverseRecOn with
  | nil => rfl
  | append_singleton l x ih =>
    rw [lastWriteWins, List.foldl_append, List.foldl_cons, List.foldl_nil, List.reverse_append]
    simp only [List.reverse_cons, List.reverse_nil, List.nil_append, List.cons_append,
      List.find?]
    rw [show (l.foldl (fun acc it => if it.ID = id then some it.Name else acc) none)
        = lastWriteWins l id from rfl, ih]
    by_cases h : x.ID = id
    · have hb : (x.ID == id) = true := beq_iff_eq.mpr h
      rw [hb]
      simp [h]
    · have hb : (x.ID == id) = false := beq_eq_false_iff_ne.mpr h
      rw [hb]
      simp [h]

instance : IsTotal (String × String) keyLe :=
  ⟨fun p q => by
    rcases goStrLt_trichotomy p.1 q.1 with h | h | h
    · exact Or.inl (Or.inl h)
    · exact Or.inl (Or.inr h)
    · exact Or.inr (Or.inl h)⟩

instance : IsTrans (String × String) keyLe :=
  ⟨fun p q r hpq hqr => by
    rcases hpq with h1 | h1 <;> rcases hqr with h2 | h2
    · exact Or.inl (goStrLt_trans h1 h2)
    · exact Or.inl (h2 ▸ h1)
    · exact Or.inl (h1 ▸ h2)
    · exact Or.inr (h1.trans h2)⟩

theorem sortPairs_perm (m : List (String × String)) : (sortPairs m).Perm m :=
  List.perm_insertionSort keyLe m

theorem sortPairs_pairwise (m : List (String × String)) : (sortPairs m).Pairwise keyLe :=
  List.sorted_insertionSort keyLe m

theorem keyLe_antisymm_keys {p q : String × String} (h1 : keyLe p q) (h2 : keyLe q p) :
    p.1 = q.1 := by
  rcases h1 with h1 | h1
  · rcases h2 with h2 | h2
    · rw [goStrLt_asymm h2] at h1
      cases h1
    · exact h2.symm
  · exact h1

theorem sortPairs_eq_of_perm {m₁ m₂ : List (String × String)}
    (hnd : (m₁.map Prod.fst).Nodup) (hperm : m₁.Perm m₂) : sortPairs m₁ = sortPairs m₂ := by
  apply sorted_perm_unique ((sortPairs_perm m₁).trans (hperm.trans (sortPairs_perm m₂).symm))
    (sortPairs_pairwise m₁) (sortPairs_pairwise m₂)
  intro a ha b hb hab hba
  have ha' : a ∈ m₁ := (sortPairs_perm m₁).subset ha
  have hb' : b ∈ m₁ := (sortPairs_perm m₁).subset hb
  exact List.inj_on_of_nodup_map hnd ha' hb' (keyLe_antisymm_keys hab hba)

theorem saveMapToJSON_bytes_perm {m₁ m₂ : List (String × String)}
    (hnd : (m₁.map Prod.fst).Nodup) (hperm : m₁.Perm m₂) :
    saveMapToJSON_bytes m₁ = saveMapToJSON_bytes m₂ := by
  unfold saveMapToJSON_bytes
  rw [sortPairs_eq_of_perm hnd hperm]

theorem keepRow_some {idI idN idC : Nat} {record : List String} {it : Item}
    (h : keepRow idI idN idC record = some it) :
    goTrimSpace it.ID = it.ID ∧ it.ID ≠ "" ∧
    goTrimSpace it.Name = it.Name ∧ it.Name ≠ "" ∧
    goTrimSpace it.Category = it.Category ∧ it.Category ≠ "" ∧
    it.Category ∈ includedCategories ∧
    ∀ w ∈ excludeWords, strContains it.Name w = false := by
  unfold keepRow at h
  by_cases h1 : record.length ≤ max idI (max idN idC)
  · rw [if_pos h1] at h
    cases h
  rw [if_neg h1] at h
  by_cases h2 : goTrimSpace (record.getD idI "") = "" ∨ goTrimSpace (record.getD idN "") = "" ∨
      goTrimSpace (record.getD idC "") = ""
  · rw [if_pos h2] at h
    cases h
  rw [if_neg h2] at h
  by_cases h3 : (!includedCategories.any fun c => c == goTrimSpace (record.getD idC "")) = true
  · rw [if_pos h3] at h
    cases h
  rw [if_neg h3] at h
  by_cases h4 : (excludeWords.any fun w => strContains (goTrimSpace (record.getD idN "")) w) = true
  · rw [if_pos h4] at h
    cases h
  rw [if_neg h4] at h
  cases h
  dsimp only
  push_neg at h2
  obtain ⟨hid, hname, hcat⟩ := h2
  rw [Bool.not_eq_true, Bool.not_eq_false'] at h3
  have hcatmem : goTrimSpace (record.getD idC "") ∈ includedCategories := by
    obtain ⟨c, hc, hceq⟩ := List.any_eq_true.mp h3
    exact (beq_iff_eq.mp hceq) ▸ hc
  rw [Bool.not_eq_true] at h4
  have hexcl : ∀ w ∈ excludeWords, strContains (goTrimSpace (record.getD idN "")) w = false := by
    intro w hw
    by_contra hcontra
    rw [Bool.not_eq_false] at hcontra
    exact absurd (List.any_eq_true.mpr ⟨w, hw, hcontra⟩) (by rw [h4]; simp)
  exact ⟨goTrimSpace_idem _, hid, goTrimSpace_idem _, hname, goTrimSpace_idem _, hcat,
    hcatmem, hexcl⟩

end Helpers

/-- C1: every Record in the slice returned by processCSV has id, name and
category non-empty after trimming, category exactly equal to one of the fixed
allow-list entries, and name containing none of the fixed exclude-substrings
case-sensitively; and every entry of every output table comes from such a
Record (its key is the id and its value the name of a processed Record). -/
theorem claim1_filter_invariant :
    (∀ (file : List (List String)) (items : List Item),
        processCSV file = Except.ok items →
        ∀ it ∈ items,
          goTrimSpace it.ID = it.ID ∧ it.ID ≠ "" ∧
          goTrimSpace it.Name = it.Name ∧ it.Name ≠ "" ∧
          goTrimSpace it.Category = it.Category ∧ it.Category ≠ "" ∧
          it.Category ∈ includedCategories ∧
          ∀ w ∈ excludeWords, strContains it.Name w = false) ∧
    (∀ (items : List Item) (id name : String),
        mapLookup (convertItemsToMap items) id = some name →
        ∃ it, it ∈ items ∧ it.ID = id ∧ it.Name = name) := by
  constructor
  · intro file items hok it hmem
    cases file with
    | nil => cases hok
    | cons header rows =>
      simp only [processCSV] at hok
      by_cases hcond : (resolveCols header).1 = -1 ∨ (resolveCols header).2.1 = -1 ∨
          (resolveCols header).2.2 = -1
      · rw [if_pos hcond] at hok
        cases hok
      · rw [if_neg hcond] at hok
        cases hok
        obtain ⟨row, hrow, hkeep⟩ := List.mem_filterMap.mp (by simpa [processRows] using hmem)
        exact keepRow_some hkeep
  · intro items id name hlook
    rw [mapLookup_convertItemsToMap] at hlook
    rcases lastWriteWins_mem items none id name hlook with ⟨x, hx, hid, hname⟩ | habs
    · exact ⟨x, hx, hid, hname⟩
    · cases habs

/-- Witness for C1: the filter invariant instantiated on a concrete file. -/
theorem claim1_filter_invariant_witness :
    goTrimSpace "1" = "1" ∧ "1" ≠ "" ∧
    goTrimSpace "Red Chair" = "Red Chair" ∧ "Red Chair" ≠ "" ∧
    goTrimSpace "House" = "House" ∧ "House" ≠ "" ∧
    "House" ∈ includedCategories ∧
    strContains "Red Chair" "Quest" = false := by
  have h := claim1_filter_invariant.1
    [["Item ID", "Name", "Category"], ["1", "Red Chair", "House"]]
    [⟨"1", "Red Chair", "House"⟩] rfl ⟨"1", "Red Chair", "House"⟩ (List.mem_singleton.mpr rfl)
  exact ⟨h.1, h.2.1, h.2.2.1, h.2.2.2.1, h.2.2.2.2.1, h.2.2.2.2.2.1, h.2.2.2.2.2.2.1,
    h.2.2.2.2.2.2.2 "Quest" (by decide)⟩

/-- C4: convertItemsToMap binds each id key to the name of the last Record
with that id in list order (equivalently, the first hit in the reversed
list), and main builds the aggregate table from the sorted list, so the merge
order is the sorted order. -/
theorem claim4_last_write_wins :
    (∀ (items : List Item) (id : String),
        mapLookup (convertItemsToMap items) id = lastWriteWins items id) ∧
    (∀ (items : List Item) (id : String),
        lastWriteWins items id =
          (items.reverse.find? (fun it => it.ID == id)).map Item.Name) ∧
    (∀ (outdir : String) (sorted : List Item) (catOrder : List String),
        (pipelineFiles outdir sorted catOrder).head? =
          some (outdir ++ "/allitems.json", saveMapToJSON_bytes (convertItemsToMap sorted))) :=
  ⟨mapLookup_convertItemsToMap, lastWriteWins_eq_find, fun _ _ _ => rfl⟩

/-- C5: a data row with fewer columns than the highest resolved column index
plus one is silently dropped: processCSV of the file with and without the
short row agree, and the run still returns Except.ok rather than an error. -/
theorem claim5_short_row_skipped :
    ∀ (header : List String) (pre post : List (List String)) (row : List String),
      (resolveCols header).1 ≠ -1 →
      (resolveCols header).2.1 ≠ -1 →
      (resolveCols header).2.2 ≠ -1 →
      row.length ≤ max (resolveCols header).1.toNat
        (max (resolveCols header).2.1.toNat (resolveCols header).2.2.toNat) →
      processCSV (header :: (pre ++ row :: post)) = processCSV (header :: (pre ++ post)) ∧
      ∃ items, processCSV (header :: (pre ++ row :: post)) = Except.ok items := by
  intro header pre post row h1 h2 h3 hlen
  have hcond : ¬((resolveCols header).1 = -1 ∨ (resolveCols header).2.1 = -1 ∨
      (resolveCols header).2.2 = -1) := by tauto
  have hkeep : keepRow (resolveCols header).1.toNat (resolveCols header).2.1.toNat
      (resolveCols header).2.2.toNat row = none := by
    unfold keepRow
    rw [if_pos hlen]
  constructor
  · simp only [processCSV]
    rw [if_neg hcond, if_neg hcond]
    congr 1
    unfold processRows
    rw [List.filterMap_append, List.filterMap_append, List.filterMap_cons, hkeep]
  · simp only [processCSV]
    rw [if_neg hcond]
    exact ⟨_, rfl⟩

/-- Witness for C5: a concrete short row is dropped without an error. -/
theorem claim5_short_row_skipped_witness :
    processCSV [["Item ID", "Name", "Category"], ["1", "Ball", "Pet"], ["2", "x"],
        ["3", "Dog", "Pet"]] =
      processCSV [["Item ID", "Name", "Category"], ["1", "Ball", "Pet"], ["3", "Dog", "Pet"]] :=
  (claim5_short_row_skipped ["Item ID", "Name", "Category"] [["1", "Ball", "Pet"]]
    [["3", "Dog", "Pet"]] ["2", "x"] (by decide) (by decide) (by decide) (by decide)).1

/-- C6: sanitizeFilename replaces every space with an underscore and then maps
every character that is not an ASCII letter, digit, underscore or hyphen to an
underscore; in particular "House Floor" becomes House_Floor and "NPC Skin!"
becomes NPC_Skin_, yielding the filenames House_Floor.json and
NPC_Skin_.json. -/
theorem claim6_sanitize_filename :
    (∀ name : String, sanitizeFilename name =
        String.mk (name.toList.map (fun c =>
          if c = ' ' then '_'
          else if ('a' ≤ c ∧ c ≤ 'z') ∨ ('A' ≤ c ∧ c ≤ 'Z') ∨ ('0' ≤ c ∧ c ≤ '9') ∨
              c = '_' ∨ c = '-' then c
          else '_'))) ∧
    sanitizeFilename "House Floor" = "House_Floor" ∧
    sanitizeFilename "NPC Skin!" = "NPC_Skin_" ∧
    sanitizeFilename "House Floor" ++ ".json" = "House_Floor.json" ∧
    sanitizeFilename "NPC Skin!" ++ ".json" = "NPC_Skin_.json" := by
  refine ⟨?_, by decide, by decide, by decide, by decide⟩
  intro name
  unfold sanitizeFilename
  rw [List.map_map]
  congr 1
  apply List.map_congr_left
  intro c _
  by_cases hc : c = ' '
  · subst hc
    decide
  · show sanitizeRune (if c = ' ' then '_' else c) = _
    rw [if_neg hc, if_neg hc]
    rfl

/-- C7: a failed write of the aggregate allitems.json is fatal with exit
status 1 and happens before any category file is attempted, the aggregate is
always the first attempted write, and when the aggregate write succeeds every
category file is attempted in turn regardless of individual failures and the
run finishes with exit status 0. -/
theorem claim7_write_failures :
    ∀ (writeOk : String → Bool) (outdir : String) (catOrder : List String),
      (writeOk (outdir ++ "/allitems.json") = false →
        (runExport writeOk outdir catOrder).exitCode = 1 ∧
        (runExport writeOk outdir catOrder).attempts = [(outdir ++ "/allitems.json", false)]) ∧
      ((runExport writeOk outdir catOrder).attempts.head? =
        some (outdir ++ "/allitems.json", writeOk (outdir ++ "/allitems.json"))) ∧
      (writeOk (outdir ++ "/allitems.json") = true →
        (runExport writeOk outdir catOrder).exitCode = 0 ∧
        (runExport writeOk outdir catOrder).attempts =
          (outdir ++ "/allitems.json", true) ::
            catOrder.map (fun c =>
              (outdir ++ "/" ++ sanitizeFilename c ++ ".json",
               writeOk (outdir ++ "/" ++ sanitizeFilename c ++ ".json")))) := by
  intro writeOk outdir catOrder
  cases h : writeOk (outdir ++ "/allitems.json") with
  | false =>
    have hru : runExport writeOk outdir catOrder =
        { exitCode := 1, attempts := [(outdir ++ "/allitems.json", false)] } := by
      unfold runExport
      rw [h]
      simp
    rw [hru]
    exact ⟨fun _ => ⟨rfl, rfl⟩, rfl, fun habs => by cases habs⟩
  | true =>
    have hru : runExport writeOk outdir catOrder =
        { exitCode := 0,
          attempts := (outdir ++ "/allitems.json", true) ::
            catOrder.map (fun c =>
              (outdir ++ "/" ++ sanitizeFilename c ++ ".json",
               writeOk (outdir ++ "/" ++ sanitizeFilename c ++ ".json"))) } := by
      unfold runExport
      rw [h]
      simp
    rw [hru]
    refine ⟨fun habs => ?_, rfl, fun _ => ⟨rfl, rfl⟩⟩
    cases habs

/-- Witness for C7: with an oracle that fails every write, the run exits with
status 1 after attempting only the aggregate file. -/
theorem claim7_write_failures_witness :
    (runExport (fun _ => false) "output" ["Pet", "House"]).exitCode = 1 ∧
    (runExport (fun _ => false) "output" ["Pet", "House"]).attempts =
      [("output" ++ "/allitems.json", false)] :=
  (claim7_write_failures (fun _ => false) "output" ["Pet", "House"]).1 rfl

/-- C9: the bytes of the output files are a deterministic function of the
processed data: permuting the category iteration order only permutes the
(filename, bytes) pairs of the run without changing any file's bytes, and the
serialized bytes of a map do not depend on the order in which its entries are
held, so repeated runs on unchanged input produce byte-identical files. -/
theorem claim9_deterministic_output :
    (∀ (outdir : String) (sorted : List Item) (co₁ co₂ : List String),
        co₁.Perm co₂ →
        (pipelineFiles outdir sorted co₁).Perm (pipelineFiles outdir sorted co₂)) ∧
    (∀ m₁ m₂ : List (String × String),
        (m₁.map Prod.fst).Nodup → m₁.Perm m₂ →
        saveMapToJSON_bytes m₁ = saveMapToJSON_bytes m₂) := by
  constructor
  · intro outdir sorted co₁ co₂ hp
    unfold pipelineFiles
    exact List.Perm.cons _ (hp.map _)
  · intro m₁ m₂ hnd hp
    exact saveMapToJSON_bytes_perm hnd hp

/-- Witness for C9 at concrete data: swapping two categories permutes the
file list, and a reordered map serializes to the same bytes. -/
theorem claim9_deterministic_output_witness :
    (pipelineFiles "output" [⟨"1", "A", "Pet"⟩] ["Pet", "House"]).Perm
      (pipelineFiles "output" [⟨"1", "A", "Pet"⟩] ["House", "Pet"]) ∧
    saveMapToJSON_bytes [("1", "A"), ("2", "B")] =
      saveMapToJSON_bytes [("2", "B"), ("1", "A")] :=
  ⟨claim9_deterministic_output.1 "output" [⟨"1", "A", "Pet"⟩] ["Pet", "House"] ["House", "Pet"]
      (by decide),
   claim9_deterministic_output.2 [("1", "A"), ("2", "B")] [("2", "B"), ("1", "A")]
      (by decide) (by decide)⟩

/-- C8: processCSV matches the three required column names case-sensitively
after trimming, in any column position and ignoring additional columns: a
resolved index is -1 exactly when no header column trims to that name, any
missing name makes processCSV fail with the missing-column error producing no
records, and when all three are present processCSV returns Except.ok. -/
theorem claim8_missing_column :
    ∀ header : List String,
      ((resolveCols header).1 = -1 ↔ ∀ col ∈ header, goTrimSpace col ≠ "Item ID") ∧
      ((resolveCols header).2.1 = -1 ↔ ∀ col ∈ header, goTrimSpace col ≠ "Name") ∧
      ((resolveCols header).2.2 = -1 ↔ ∀ col ∈ header, goTrimSpace col ≠ "Category") ∧
      (∀ rows : List (List String),
        ((resolveCols header).1 = -1 ∨ (resolveCols header).2.1 = -1 ∨
            (resolveCols header).2.2 = -1) →
        processCSV (header :: rows) =
          Except.error "could not find required columns (Item ID, Name, Category) in the CSV") ∧
      (∀ rows : List (List String),
        (resolveCols header).1 ≠ -1 → (resolveCols header).2.1 ≠ -1 →
        (resolveCols header).2.2 ≠ -1 →
        ∃ items, processCSV (header :: rows) = Except.ok items) := by
  intro header
  have hfst : (resolveCols header).1 =
      (match lastMatchPos "Item ID" header with
       | some j => (0 : Int) + (j : Int)
       | none => (-1 : Int)) := resolveColsAux_fst header 0 (-1, -1, -1)
  have hsnd : (resolveCols header).2.1 =
      (match lastMatchPos "Name" header with
       | some j => (0 : Int) + (j : Int)
       | none => (-1 : Int)) := resolveColsAux_snd header 0 (-1, -1, -1)
  have htrd : (resolveCols header).2.2 =
      (match lastMatchPos "Category" header with
       | some j => (0 : Int) + (j : Int)
       | none => (-1 : Int)) := resolveColsAux_trd header 0 (-1, -1, -1)
  refine ⟨?_, ?_, ?_, ?_, ?_⟩
  · rw [hfst, ← lastMatchPos_none_iff]
    cases hm : lastMatchPos "Item ID" header with
    | some j =>
      constructor
      · intro habs
        exfalso
        have habs2 : (0 : Int) + (j : Int) = -1 := habs
        omega
      · intro habs
        cases habs
    | none => simp
  · rw [hsnd, ← lastMatchPos_none_iff]
    cases hm : lastMatchPos "Name" header with
    | some j =>
      constructor
      · intro habs
        exfalso
        have habs2 : (0 : Int) + (j : Int) = -1 := habs
        omega
      · intro habs
        cases habs
    | none => simp
  · rw [htrd, ← lastMatchPos_none_iff]
    cases hm : lastMatchPos "Category" header with
    | some j =>
      constructor
      · intro habs
        exfalso
        have habs2 : (0 : Int) + (j : Int) = -1 := habs
        omega
      · intro habs
        cases habs
    | none => simp
  · intro rows hcond
    simp only [processCSV]
    rw [if_pos hcond]
  · intro rows h1 h2 h3
    have hcond : ¬((resolveCols header).1 = -1 ∨ (resolveCols header).2.1 = -1 ∨
        (resolveCols header).2.2 = -1) := by tauto
    simp only [processCSV]
    rw [if_neg hcond]
    exact ⟨_, rfl⟩

/-- Witness for C8: a concrete header with no Name column makes processCSV
fail with the missing-column error. -/
theorem claim8_missing_column_witness :
    processCSV [["Item ID", "Category"], ["a", "b"]] =
      Except.error "could not find required columns (Item ID, Name, Category) in the CSV" :=
  (claim8_missing_column ["Item ID", "Category"]).2.2.2.1 [["a", "b"]] (by decide)

/-- C10: when the header contains more than one column whose trimmed name
equals the same required column name, processCSV resolves that column to the
rightmost such occurrence, not the first, and proceeds without error: each
resolved index equals the last matching position (whose trimmed content is
the required name and after which no column matches), and a concrete file
with a duplicated Item ID header is processed from the rightmost occurrence
with no error. -/
theorem claim10_duplicate_header_last_wins :
    (∀ (header : List String) (j : Nat),
        lastMatchPos "Item ID" header = some j →
          (resolveCols header).1 = (j : Int) ∧
          goTrimSpace (header.getD j "") = "Item ID" ∧
          ∀ k, j < k → k < header.length → goTrimSpace (header.getD k "") ≠ "Item ID") ∧
    (∀ (header : List String) (j : Nat),
        lastMatchPos "Name" header = some j →
          (resolveCols header).2.1 = (j : Int) ∧
          goTrimSpace (header.getD j "") = "Name" ∧
          ∀ k, j < k → k < header.length → goTrimSpace (header.getD k "") ≠ "Name") ∧
    (∀ (header : List String) (j : Nat),
        lastMatchPos "Category" header = some j →
          (resolveCols header).2.2 = (j : Int) ∧
          goTrimSpace (header.getD j "") = "Category" ∧
          ∀ k, j < k → k < header.length → goTrimSpace (header.getD k "") ≠ "Category") ∧
    processCSV [["Item ID", "Item ID", "Name", "Category"], ["x", "7", "Fido", "Pet"]] =
      Except.ok [⟨"7", "Fido", "Pet"⟩] := by
  refine ⟨?_, ?_, ?_, rfl⟩
  · intro header j hm
    have hfst : (resolveCols header).1 =
        (match lastMatchPos "Item ID" header with
         | some j => (0 : Int) + (j : Int)
         | none => (-1 : Int)) := resolveColsAux_fst header 0 (-1, -1, -1)
    obtain ⟨hlen, hget, hafter⟩ := lastMatchPos_spec "Item ID" header j hm
    refine ⟨?_, hget, hafter⟩
    rw [hfst, hm]
    simp
  · intro header j hm
    have hsnd : (resolveCols header).2.1 =
        (match lastMatchPos "Name" header with
         | some j => (0 : Int) + (j : Int)
         | none => (-1 : Int)) := resolveColsAux_snd header 0 (-1, -1, -1)
    obtain ⟨hlen, hget, hafter⟩ := lastMatchPos_spec "Name" header j hm
    refine ⟨?_, hget, hafter⟩
    rw [hsnd, hm]
    simp
  · intro header j hm
    have htrd : (resolveCols header).2.2 =
        (match lastMatchPos "Category" header with
         | some j => (0 : Int) + (j : Int)
         | none => (-1 : Int)) := resolveColsAux_trd header 0 (-1, -1, -1)
    obtain ⟨hlen, hget, hafter⟩ := lastMatchPos_spec "Category" header j hm
    refine ⟨?_, hget, hafter⟩
    rw [htrd, hm]
    simp

/-- Witness for C10: on a header with a duplicated Item ID column, the
resolved index is the rightmost occurrence and its content matches. -/
theorem claim10_duplicate_header_last_wins_witness :
    (resolveCols ["Item ID", "Item ID", "Name", "Category"]).1 = ((1 : Nat) : Int) ∧
    goTrimSpace (["Item ID", "Item ID", "Name", "Category"].getD 1 "") = "Item ID" := by
  have h := claim10_duplicate_header_last_wins.1 ["Item ID", "Item ID", "Name", "Category"] 1
    (by decide)
  exact ⟨h.1, h.2.1⟩

/-- C2: the sortItemsByID comparator compares numerically when both ids parse
as optionally-signed base-10 integers (Atoi) and byte-wise as the original
strings otherwise, and for any list of Records carrying the ids "1", "2",
"10" and "abc" in any input order, any output admitted by the sort contract
lists them in the order "1", "2", "10", "abc". -/
theorem claim2_sort_comparator :
    (∀ (x y : Item) (i j : Int), atoi x.ID = some i → atoi y.ID = some j →
        lessItems x y = decide (i < j)) ∧
    (∀ x y : Item, atoi x.ID = none ∨ atoi y.ID = none →
        lessItems x y = goStrLt x.ID y.ID) ∧
    (∀ a b c d : Item, a.ID = "1" → b.ID = "2" → c.ID = "10" → d.ID = "abc" →
        ∀ l out : List Item, l.Perm [a, b, c, d] → sortItemsByID_spec l out →
          out = [a, b, c, d]) := by
  refine ⟨?_, ?_, ?_⟩
  · intro x y i j hi hj
    unfold lessItems
    rw [hi, hj]
  · intro x y h
    unfold lessItems
    rcases h with h | h
    · rw [h]
    · rw [h]
      cases hx : atoi x.ID <;> rfl
  · intro a b c d ha hb hc hd l out hl hspec
    obtain ⟨hperm, hsorted⟩ := hspec
    have hout : out.Perm [a, b, c, d] := hperm.trans hl
    have f_ba : lessItems b a = false := by unfold lessItems; rw [hb, ha]; decide
    have f_ca : lessItems c a = false := by unfold lessItems; rw [hc, ha]; decide
    have f_da : lessItems d a = false := by unfold lessItems; rw [hd, ha]; decide
    have f_cb : lessItems c b = false := by unfold lessItems; rw [hc, hb]; decide
    have f_db : lessItems d b = false := by unfold lessItems; rw [hd, hb]; decide
    have f_dc : lessItems d c = false := by unfold lessItems; rw [hd, hc]; decide
    have t_ab : lessItems a b = true := by unfold lessItems; rw [ha, hb]; decide
    have t_ac : lessItems a c = true := by unfold lessItems; rw [ha, hc]; decide
    have t_ad : lessItems a d = true := by unfold lessItems; rw [ha, hd]; decide
    have t_bc : lessItems b c = true := by unfold lessItems; rw [hb, hc]; decide
    have t_bd : lessItems b d = true := by unfold lessItems; rw [hb, hd]; decide
    have t_cd : lessItems c d = true := by unfold lessItems; rw [hc, hd]; decide
    have hexp : ([a, b, c, d] : List Item).Pairwise (fun x y => lessItems y x = false) := by
      refine List.pairwise_cons.mpr ⟨?_, List.pairwise_cons.mpr ⟨?_,
        List.pairwise_cons.mpr ⟨?_, List.pairwise_singleton _ _⟩⟩⟩
      · intro y hy
        rcases List.mem_cons.mp hy with rfl | hy
        · exact f_ba
        rcases List.mem_cons.mp hy with rfl | hy
        · exact f_ca
        rcases List.mem_cons.mp hy with rfl | hy
        · exact f_da
        · cases hy
      · intro y hy
        rcases List.mem_cons.mp hy with rfl | hy
        · exact f_cb
        rcases List.mem_cons.mp hy with rfl | hy
        · exact f_db
        · cases hy
      · intro y hy
        rcases List.mem_cons.mp hy with rfl | hy
        · exact f_dc
        · cases hy
    have key : ∀ x ∈ ([a, b, c, d] : List Item), ∀ y ∈ ([a, b, c, d] : List Item),
        lessItems y x = false → lessItems x y = false → x = y := by
      intro x hx y hy hxy hyx
      simp only [List.mem_cons, List.not_mem_nil, or_false] at hx hy
      rcases hx with rfl | rfl | rfl | rfl <;> rcases hy with rfl | rfl | rfl | rfl <;>
        first
          | rfl
          | (exfalso; simp_all)
    exact sorted_perm_unique hout hsorted hexp
      (fun x hx y hy => key x (hout.subset hx) y (hout.subset hy))

/-- Witness for C2: the comparator compares the parseable ids "2" and "10"
numerically, and a concrete shuffled list sorts to the order 1, 2, 10, abc. -/
theorem claim2_sort_comparator_witness :
    lessItems ⟨"2", "B", "Pet"⟩ ⟨"10", "C", "Pet"⟩ = decide ((2 : Int) < 10) ∧
    ([⟨"1", "A", "Pet"⟩, ⟨"2", "B", "Pet"⟩, ⟨"10", "C", "Pet"⟩, ⟨"abc", "D", "Pet"⟩] :
        List Item) =
      [⟨"1", "A", "Pet"⟩, ⟨"2", "B", "Pet"⟩, ⟨"10", "C", "Pet"⟩, ⟨"abc", "D", "Pet"⟩] :=
  ⟨claim2_sort_comparator.1 ⟨"2", "B", "Pet"⟩ ⟨"10", "C", "Pet"⟩ 2 10 (by decide) (by decide),
   claim2_sort_comparator.2.2 ⟨"1", "A", "Pet"⟩ ⟨"2", "B", "Pet"⟩ ⟨"10", "C", "Pet"⟩
     ⟨"abc", "D", "Pet"⟩ rfl rfl rfl rfl
     [⟨"10", "C", "Pet"⟩, ⟨"abc", "D", "Pet"⟩, ⟨"1", "A", "Pet"⟩, ⟨"2", "B", "Pet"⟩]
     [⟨"1", "A", "Pet"⟩, ⟨"2", "B", "Pet"⟩, ⟨"10", "C", "Pet"⟩, ⟨"abc", "D", "Pet"⟩]
     (by decide) ⟨by decide, by decide⟩⟩

/-- C3 counterexample: sortItemsByID calls sort.Slice, whose contract (the
embedding sortItemsByID_spec) admits an output reversing two distinct
equal-id records of the input, so the sort does not guarantee that equal-id
records retain their relative input order: for this concrete input, the
reversed output satisfies everything the sort guarantees while the two
records with id "1" appear in the opposite order. -/
theorem claim3_counterexample :
    sortItemsByID_spec [⟨"1", "Alpha", "Pet"⟩, ⟨"1", "Beta", "Pet"⟩]
      [⟨"1", "Beta", "Pet"⟩, ⟨"1", "Alpha", "Pet"⟩] ∧
    (⟨"1", "Alpha", "Pet"⟩ : Item) ≠ ⟨"1", "Beta", "Pet"⟩ ∧
    Item.ID ⟨"1", "Alpha", "Pet"⟩ = Item.ID ⟨"1", "Beta", "Pet"⟩ ∧
    [(⟨"1", "Beta", "Pet"⟩ : Item), ⟨"1", "Alpha", "Pet"⟩] ≠
      [⟨"1", "Alpha", "Pet"⟩, ⟨"1", "Beta", "Pet"⟩] :=
  ⟨⟨by decide, by decide⟩, by decide, by decide, by decide⟩

/-- C3 amended: sortItemsByID produces some permutation of its input that is
sorted under the comparator, but the relative input order of records with
equal ids is not guaranteed (Go's sort.Slice is documented as unstable): for
two distinct records sharing the id "1", both relative orders satisfy the
sort's contract. -/
theorem claim3_sort_not_stable :
    sortItemsByID_spec [⟨"1", "Alpha", "Pet"⟩, ⟨"1", "Beta", "Pet"⟩]
      [⟨"1", "Alpha", "Pet"⟩, ⟨"1", "Beta", "Pet"⟩] ∧
    sortItemsByID_spec [⟨"1", "Alpha", "Pet"⟩, ⟨"1", "Beta", "Pet"⟩]
      [⟨"1", "Beta", "Pet"⟩, ⟨"1", "Alpha", "Pet"⟩] :=
  ⟨⟨by decide, by decide⟩, ⟨by decide, by decide⟩⟩

end DdvItems
